import Mathlib

/-!
# Verification of the per-guild music subscription coordinator

Shallow embedding of the queue / player / connection coordination logic of the
Discord music bot (`src/client.js` and `src/commands/commands.js`, the latter
containing both the command table and the `MusicSubscription` module), together
with proofs and refutations of the specified properties.

Conventions of the embedding:
  - JavaScript asynchronous event handlers are modelled as state transformers
    on explicit state records; the cooperative run-to-completion scheduling of
    the source is reflected by composing the transformers in event order.
  - A JavaScript statement that throws is modelled by returning the thrown
    error (`Except`-style, or a paired `Option JsError`).
  - Timer-based waits (`entersState` with a timeout) are modelled by a boolean
    parameter saying whether the awaited transition arrived within the window.
  - `Math.random()` draws are modelled by a function `rand : Nat -> Nat` giving
    the value of `Math.floor(Math.random() * c)` at each loop bound `c`; a real
    draw always satisfies `rand c < c` for `0 < c`.
-/

namespace MusicBot

/-- Status values of the `@discordjs/voice` audio player (`AudioPlayerStatus`). -/
inductive PlayerStatus
  | Idle
  | Buffering
  | Playing
  | Paused
  | AutoPaused
  deriving DecidableEq

/-- Status values of the voice connection (`VoiceConnectionStatus`). -/
inductive ConnStatus
  | Signalling
  | Connecting
  | Ready
  | Disconnected
  | Destroyed
  deriving DecidableEq

/-- A Track as the coordinator sees it: an identity, the transient `errored`
flag, and whether `createAudioResource()` succeeds for it (the outcome of the
upstream fetch, an input of the scenario). -/
structure Track where
  id : Nat
  errored : Bool
  produceOk : Bool
  deriving DecidableEq

/-- Observable side effects of the coordinator: Track lifecycle callbacks,
handing a resource to the audio player, and a notification message sent to a
text channel (identified by a numeric handle). -/
inductive Ev
  | onStart (id : Nat)
  | onFinish (id : Nat)
  | onError (id : Nat)
  | played (id : Nat)
  | notify (channel : Nat)
  deriving DecidableEq

/-- Errors thrown by the JavaScript runtime. -/
inductive JsError
  | referenceError (name : String)
  | typeErrorUndefined (prop : String)
  deriving DecidableEq

/-- State of one `MusicSubscription` (source lines 560-682), its player and its
voice connection, plus the registry membership of the subscription and a log of
the observable side effects. -/
structure MusicSub where
  queue : List Track
  queueLock : Bool
  wait : Bool
  destroyed : Bool
  playerStatus : PlayerStatus
  playerResource : Option Track
  connStatus : ConnStatus
  connDestroyCount : Nat
  inRegistry : Bool
  lastTextChannel : Nat
  events : List Ev
  deriving DecidableEq

/-- Recursion core of `MusicSubscription.processQueue` (source lines 754-779).
The list argument is the queue being processed; guard, shift, produce, and on
failure `onError` + release the lock + recurse on the rest. On success the
resource is handed to the player (which leaves `Idle`), and the lock is
released. -/
def processQueueFrom : List Track → MusicSub → MusicSub
  | q, s =>
    if s.queueLock = true ∨ s.playerStatus ≠ PlayerStatus.Idle ∨ q = [] then
      { s with queue := q }
    else
      match q with
      | [] => { s with queue := q }
      | t :: rest =>
        if t.produceOk then
          { s with queue := rest, queueLock := false,
                   playerStatus := PlayerStatus.Playing, playerResource := some t,
                   events := s.events ++ [Ev.played t.id] }
        else
          processQueueFrom rest
            { s with queue := rest, queueLock := false,
                     events := s.events ++ [Ev.onError t.id] }

/-- `MusicSubscription.processQueue` (source lines 754-779): clears the `wait`
suppression flag, then runs the guarded shift-and-produce loop. -/
def processQueue (s : MusicSub) : MusicSub :=
  processQueueFrom s.queue { s with wait := false }

/-- `MusicSubscription.stop` (source lines 713-721): lock the queue, clear it,
force-stop the player, mark destroyed, destroy the connection if it is not
already destroyed, and remove the subscription from the registry. -/
def stopMethod (s : MusicSub) : MusicSub :=
  let s1 := { s with queueLock := true, queue := [],
                     playerStatus := PlayerStatus.Idle, playerResource := none,
                     destroyed := true }
  let s2 :=
    if s1.connStatus = ConnStatus.Destroyed then s1
    else { s1 with connStatus := ConnStatus.Destroyed,
                   connDestroyCount := s1.connDestroyCount + 1 }
  { s2 with inRegistry := false }

/-- `voiceConnection.destroy()` together with the `Destroyed` state-change
handler it triggers (source lines 599-607), which calls `stop()` on the
subscription. A connection already destroyed emits no event. -/
def destroyConnCascade (s : MusicSub) : MusicSub :=
  if s.connStatus = ConnStatus.Destroyed then s
  else stopMethod { s with connStatus := ConnStatus.Destroyed,
                           connDestroyCount := s.connDestroyCount + 1 }

/-- The audio player `stateChange` handler for a transition into `Idle` from a
non-Idle state (source lines 634-668). `oldResource` is `oldState.resource`,
the resource the player held before the transition (absent when the player
never held one); `playingWithin30s` says whether the player reached `Playing`
within the 30 second `entersState` window. The handler reads
`(oldState.resource).metadata` unguarded, so an absent resource throws a
TypeError before anything else runs; otherwise it fires `onFinish` unless the
track errored, processes the queue unless `wait` is set, and on the 30 second
timeout notifies the last text channel and destroys the connection (which
cascades into `stop()`). -/
def idleHandler (s : MusicSub) (oldResource : Option Track) (playingWithin30s : Bool) :
    Except JsError MusicSub :=
  match oldResource with
  | none => Except.error (JsError.typeErrorUndefined "metadata")
  | some t =>
    let s1 :=
      if t.errored = false then { s with events := s.events ++ [Ev.onFinish t.id] }
      else s
    let s2 := if s1.wait = false then processQueue s1 else s1
    if playingWithin30s then Except.ok s2
    else
      let s3 := { s2 with events := s2.events ++ [Ev.notify s2.lastTextChannel] }
      Except.ok
        (if s3.connStatus ≠ ConnStatus.Destroyed then destroyConnCascade s3 else s3)

/-- State seen by the `Connecting`/`Signalling` ready guard (source lines
608-627): the `readyLock` reentrancy flag, the connection status and a count of
`voiceConnection.destroy()` calls. -/
structure GuardState where
  readyLock : Bool
  connStatus : ConnStatus
  connDestroyCount : Nat
  deriving DecidableEq

/-- Top-level identifiers in scope in the subscription module (its imports at
source lines 511-522 and its own declarations). Used to decide whether an
identifier reference resolves or throws a ReferenceError. -/
def subscriptionModuleScope : List String :=
  ["AudioPlayerStatus", "createAudioPlayer", "entersState", "joinVoiceChannel",
   "VoiceConnectionDisconnectReason", "VoiceConnectionStatus", "promisify",
   "wait", "subscriptions", "getOrCreateSubscription", "MusicSubscription"]

/-- Whether an identifier is bound in the subscription module scope. -/
def identDefined (n : String) : Bool := subscriptionModuleScope.contains n

/-- The `Connecting`/`Signalling` branch of the voice connection `stateChange`
handler (source lines 608-627). If the ready lock is not held it is armed, and
the connection gets 15 seconds to reach `Ready`. On timeout the catch block
evaluates the identifier `VoiceConnectdionStatus` (source line 623), which is
bound nowhere in the module, so the status comparison throws a ReferenceError
before `voiceConnection.destroy()` can run; the `finally` still clears
`readyLock`. The dead branch behind `identDefined` keeps the destroy code the
source intended. -/
def onConnectingOrSignalling (s : GuardState) (newStatus : ConnStatus)
    (reachedReadyWithin15s : Bool) : GuardState × Option JsError :=
  if s.readyLock = false ∧
      (newStatus = ConnStatus.Connecting ∨ newStatus = ConnStatus.Signalling) then
    let armed := { s with readyLock := true }
    if reachedReadyWithin15s then ({ armed with readyLock := false }, none)
    else if identDefined "VoiceConnectdionStatus" then
      let after :=
        if armed.connStatus ≠ ConnStatus.Destroyed then
          { armed with connStatus := ConnStatus.Destroyed,
                       connDestroyCount := armed.connDestroyCount + 1 }
        else armed
      ({ after with readyLock := false }, none)
    else
      ({ armed with readyLock := false },
       some (JsError.referenceError "VoiceConnectdionStatus"))
  else (s, none)

/-- A subscription as the registry sees it: its construction identity and the
mutable last text channel used for notifications. -/
structure SubHandle where
  instId : Nat
  lastTextChannel : Nat
  deriving DecidableEq

/-- JavaScript `Map.get`: the value of the first entry with the key. -/
def mapGet : List (String × SubHandle) → String → Option SubHandle
  | [], _ => none
  | (k', v) :: rest, k => if k' = k then some v else mapGet rest k

/-- JavaScript `Map.set`: replace the first entry with the key, else append. -/
def mapSet : List (String × SubHandle) → String → SubHandle → List (String × SubHandle)
  | [], k, v => [(k, v)]
  | (k', v') :: rest, k, v =>
    if k' = k then (k, v) :: rest else (k', v') :: mapSet rest k v

/-- The process-wide `subscriptions` map plus the counter that gives each newly
constructed subscription a fresh identity. -/
structure RegState where
  entries : List (String × SubHandle)
  nextInst : Nat
  deriving DecidableEq

/-- `getOrCreateSubscription` (source lines 531-554): return the existing
subscription for the guild after updating its `lastTextChannel`, or construct a
new one (which joins the voice channel) and insert it. -/
def getOrCreateSubscription (r : RegState) (guildId : String) (textChannel : Nat) :
    SubHandle × RegState :=
  match mapGet r.entries guildId with
  | some sub =>
    let sub' : SubHandle := { sub with lastTextChannel := textChannel }
    (sub', { r with entries := mapSet r.entries guildId sub' })
  | none =>
    let sub : SubHandle := { instId := r.nextInst, lastTextChannel := textChannel }
    (sub, { entries := mapSet r.entries guildId sub, nextInst := r.nextInst + 1 })

/-- State of the reconnection policy: the library-maintained rejoin attempt
counter, the connection status, the log of backoff waits (in milliseconds) and
the number of `rejoin()` calls issued. -/
structure ReconnState where
  rejoinAttempts : Nat
  status : ConnStatus
  waits : List Nat
  rejoins : Nat
  deriving DecidableEq

/-- The non-4014 `Disconnected` branch of the connection `stateChange` handler
(source lines 589-598): with fewer than 5 rejoin attempts so far, wait
`(attempts + 1) * 5000` ms and call `rejoin()`; otherwise destroy.
Modelled from the spec: the `rejoinAttempts` counter lives in the
`@discordjs/voice` `VoiceConnection`, not in this repository; per the spec,
each `rejoin()` increments it and reaching `Ready` resets it to 0. -/
def onDisconnectedRecoverable (s : ReconnState) : ReconnState :=
  if s.rejoinAttempts < 5 then
    { s with waits := s.waits ++ [(s.rejoinAttempts + 1) * 5000],
             rejoinAttempts := s.rejoinAttempts + 1,
             rejoins := s.rejoins + 1 }
  else
    { s with status := ConnStatus.Destroyed }

/-- Reaching `Ready` resets the rejoin attempt counter.
Modelled from the spec: this reset is `@discordjs/voice` behavior. -/
def onReadyReached (s : ReconnState) : ReconnState := { s with rejoinAttempts := 0 }

/-- A run of consecutive `Disconnected` events that never reach `Ready`. -/
def runDisconnects : Nat → ReconnState → ReconnState
  | 0, s => s
  | n + 1, s => runDisconnects n (onDisconnectedRecoverable s)

/-- A freshly disconnected connection that has not retried yet. -/
def reconnInit : ReconnState :=
  { rejoinAttempts := 0, status := ConnStatus.Disconnected, waits := [], rejoins := 0 }

/-- JavaScript array read `q[i]`: the element, or `undefined` (`none`) when the
index is out of range or the slot is a hole. -/
def jsIndex {α : Type} (q : List (Option α)) (i : Nat) : Option α :=
  (q.get? i).join

/-- JavaScript array write `q[i] = v`: set in range, else extend the array with
holes up to index `i` (reading a hole gives `undefined`). -/
def jsWrite {α : Type} (q : List (Option α)) (i : Nat) (v : Option α) :
    List (Option α) :=
  if i < q.length then q.set i v
  else q ++ List.replicate (i - q.length) none ++ [v]

/-- `MusicSubscription.swap` (source lines 734-738): the three-assignment
exchange `temp = q[i]; q[i] = q[j]; q[j] = temp`, with JavaScript array
semantics and no bounds checking of its own. -/
def swap {α : Type} (q : List (Option α)) (i j : Nat) : List (Option α) :=
  let temp := jsIndex q i
  let q1 := jsWrite q i (jsIndex q j)
  jsWrite q1 j temp

/-- Loop of `MusicSubscription.shuffle` (source lines 740-749), counting
`currentIndex` down from the queue length: at counter value `c + 1` it draws
`randomIndex = rand (c + 1)` (the value of `Math.floor(Math.random() * currentIndex)`),
decrements, and swaps positions `c` and `randomIndex`. -/
def shuffleGo {α : Type} (rand : Nat → Nat) : Nat → List (Option α) → List (Option α)
  | 0, q => q
  | c + 1, q => shuffleGo rand c (swap q c (rand (c + 1)))

/-- `MusicSubscription.shuffle`: the in-place Fisher-Yates loop over the whole
queue. -/
def shuffle {α : Type} (rand : Nat → Nat) (q : List (Option α)) : List (Option α) :=
  shuffleGo rand q.length q

/-- Specification-side formalisation of the index permutation performed by the
shuffle loop: the loop step at counter `c + 1` composes the transposition of
positions `c` and `rand (c + 1)` before the rest of the loop. The out-of-range
guard is vacuous for real draws (`rand (c + 1) < c + 1 ≤ n`). Compared against
`shuffle` itself by the Fisher-Yates theorem. -/
def loopPerm (n : Nat) (rand : Nat → Nat) : Nat → Equiv.Perm (Fin n)
  | 0 => 1
  | c + 1 =>
    if h : c < n ∧ rand (c + 1) < n then
      Equiv.swap ⟨c, h.1⟩ ⟨rand (c + 1), h.2⟩ * loopPerm n rand c
    else loopPerm n rand c

/-- A full sequence of Fisher-Yates draws: for each counter value `c + 1` an
outcome of `Math.floor(Math.random() * (c + 1))`, that is an element of
`Fin (c + 1)`. -/
def randOf (n : Nat) (d : (c : Fin n) → Fin (c.val + 1)) : Nat → Nat :=
  fun m => if h : 0 < m ∧ m ≤ n then (d ⟨m - 1, by omega⟩).val else 0

/-- Extension of a permutation of `Fin n` to `Fin (n + 1)` fixing the last
element; the remaining loop iterations act this way on the already-placed top
position. -/
def extLast {n : Nat} (ρ : Equiv.Perm (Fin n)) : Equiv.Perm (Fin (n + 1)) where
  toFun i := if h : i.val < n then Fin.castSucc (ρ ⟨i.val, h⟩) else i
  invFun i := if h : i.val < n then Fin.castSucc (ρ.symm ⟨i.val, h⟩) else i
  left_inv := by
    intro i
    by_cases h : i.val < n
    · have h2 : ((Fin.castSucc (ρ ⟨i.val, h⟩)) : Fin (n + 1)).val < n :=
        (ρ ⟨i.val, h⟩).isLt
      simp only [h, dif_pos, h2]
      apply Fin.ext
      simp
    · simp [h]
  right_inv := by
    intro i
    by_cases h : i.val < n
    · have h2 : ((Fin.castSucc (ρ.symm ⟨i.val, h⟩)) : Fin (n + 1)).val < n :=
        (ρ.symm ⟨i.val, h⟩).isLt
      simp only [h, dif_pos, h2]
      apply Fin.ext
      simp
    · simp [h]

/-- The map from full draw sequences to the resulting index permutation of the
shuffle loop run over the whole range. -/
def fyMap (n : Nat) (d : (c : Fin n) → Fin (c.val + 1)) : Equiv.Perm (Fin n) :=
  loopPerm n (randOf n d) n

/-- Replies the `/swap` command handler can produce from its validation steps
(source lines 358-396). -/
inductive SwapReply
  | melon
  | notANumber
  | sameIndices
  | negativeIndex
  deriving DecidableEq

/-- Outcome of one `/swap` invocation: a synchronous validation reply, a thrown
error, or reaching `MusicSubscription.swap` with the given indices. -/
inductive SwapOutcome
  | reply (r : SwapReply)
  | thrown (e : JsError)
  | swapped (q : List (Option Track)) (i j : Int)
  deriving DecidableEq

/-- Top-level identifiers in scope in the commands module (its imports at
source lines 1-13 and its own declarations). The clamping lines of the `/swap`
handler reference a bare `queue`, which is not among them. -/
def commandsModuleScope : List String :=
  ["SlashCommandBuilder", "GuildMember", "MessageEmbed", "MessageAttachment",
   "AudioPlayerStatus", "entersState", "joinVoiceChannel", "VoiceConnectionStatus",
   "Track", "subscriptions", "getOrCreateSubscription",
   "getSpotifySongsFromPlaylist", "isInteractionValidForMusic",
   "ensureConnectionIsReady", "commands", "enqueueYoutubeTrack"]

/-- The `/swap` command execute body (source lines 358-396) after the
subscription lookup, on a queue of length at least 2. The two index options
arrive as `Number(string.trim())`, modelled as `none` for NaN and `some i` for
an integer value. The clamping line
`index1 > subscription.queue.length && (index1 = queue.length - 1)` evaluates
the unbound identifier `queue` when its guard holds, throwing a
ReferenceError (and the assignment to the `const` would be a TypeError
anyway); note the guard is strict, so an index exactly equal to the queue
length is not caught by any check and reaches `MusicSubscription.swap`. -/
def swapCommandExecute (q : List (Option Track)) (index1 index2 : Option Int) :
    SwapOutcome :=
  if q.length < 2 then SwapOutcome.reply SwapReply.melon
  else
    match index1 with
    | none => SwapOutcome.reply SwapReply.notANumber
    | some i1 =>
      match index2 with
      | none => SwapOutcome.reply SwapReply.notANumber
      | some i2 =>
        if (q.length : Int) < i1 then SwapOutcome.thrown (JsError.referenceError "queue")
        else if (q.length : Int) < i2 then SwapOutcome.thrown (JsError.referenceError "queue")
        else if i1 = i2 then SwapOutcome.reply SwapReply.sameIndices
        else if i1 < 0 ∨ i2 < 0 then SwapOutcome.reply SwapReply.negativeIndex
        else SwapOutcome.swapped (swap q i1.toNat i2.toNat) i1 i2

/-- One entry of the command table: the name given to its `SlashCommandBuilder`
and whether its execute body ever calls `MusicSubscription.stop` (as opposed to
`audioPlayer.stop`, which merely skips the current track). -/
structure CommandDef where
  builderName : String
  callsSubscriptionStop : Bool
  deriving DecidableEq

/-- The `commands` object literal of `src/commands/commands.js` as the ordered
list of its key-value pairs (source lines 31-489). The ninth and tenth entries
both use the key `skip`; the tenth carries the builder named `stop` but its
body only calls `subscription.audioPlayer.stop()` (a skip). No entry calls
`MusicSubscription.stop`. -/
def commandEntries : List (String × CommandDef) :=
  [("play", { builderName := "play", callsSubscriptionStop := false }),
   ("next", { builderName := "next", callsSubscriptionStop := false }),
   ("now", { builderName := "now", callsSubscriptionStop := false }),
   ("pause", { builderName := "pause", callsSubscriptionStop := false }),
   ("shuffle", { builderName := "shuffle", callsSubscriptionStop := false }),
   ("clear", { builderName := "clear", callsSubscriptionStop := false }),
   ("queue", { builderName := "queue", callsSubscriptionStop := false }),
   ("swap", { builderName := "swap", callsSubscriptionStop := false }),
   ("skip", { builderName := "skip", callsSubscriptionStop := false }),
   ("skip", { builderName := "stop", callsSubscriptionStop := false }),
   ("move", { builderName := "move", callsSubscriptionStop := false })]

/-- JavaScript object-literal semantics: with duplicate keys, the later binding
wins. -/
def jsObject {α : Type} (entries : List (String × α)) (k : String) : Option α :=
  ((entries.filter (fun e => e.1 == k)).getLast?).map Prod.snd

/-- Result of dispatching one command interaction. -/
inductive DispatchResult
  | executed (c : CommandDef)
  | noop
  deriving DecidableEq

/-- The `interactionCreate` handler of `src/client.js` (lines 17-21): execute
the command registered under the interaction name, or do nothing when no such
key exists. -/
def dispatch (name : String) : DispatchResult :=
  match jsObject commandEntries name with
  | some c => DispatchResult.executed c
  | none => DispatchResult.noop

/-- A subscription state with nothing queued or playing, used to instantiate
the scenario theorems. -/
def subInit : MusicSub :=
  { queue := [], queueLock := false, wait := false, destroyed := false,
    playerStatus := PlayerStatus.Idle, playerResource := none,
    connStatus := ConnStatus.Ready, connDestroyCount := 0, inRegistry := true,
    lastTextChannel := 0, events := [] }

/-- A track whose resource production fails. -/
def tA : Track := { id := 1, errored := false, produceOk := false }

/-- A track whose resource production succeeds. -/
def tB : Track := { id := 2, errored := false, produceOk := true }

/-- An idle subscription whose queue holds the failing track followed by the
good one. -/
def sC1 : MusicSub := { subInit with queue := [tA, tB] }

/-- Two concrete good tracks for the swap-command scenarios. -/
def tX : Track := { id := 10, errored := false, produceOk := true }

/-- Second concrete good track for the swap-command scenarios. -/
def tY : Track := { id := 11, errored := false, produceOk := true }

/-- An empty registry. -/
def regSample : RegState := { entries := [], nextInst := 0 }

/-- C1: when the front track A of the queue fails resource production and a
track B follows it, one call to `processQueue` fires A's `onError` exactly
once, never fires A's `onFinish`, releases the queue lock, and recurses so
that the next track handed to the player is B; the subscription is not
destroyed and the remaining queue keeps its order. -/
theorem processQueue_failed_track_skips
    (s : MusicSub) (A B : Track) (rest : List Track)
    (hq : s.queue = A :: B :: rest)
    (hA : A.produceOk = false) (hB : B.produceOk = true)
    (hlock : s.queueLock = false) (hidle : s.playerStatus = PlayerStatus.Idle) :
    processQueue s =
      { s with wait := false, queue := rest, queueLock := false,
               playerStatus := PlayerStatus.Playing, playerResource := some B,
               events := s.events ++ [Ev.onError A.id, Ev.played B.id] } ∧
    (processQueue s).destroyed = s.destroyed ∧
    (processQueue s).connStatus = s.connStatus ∧
    (processQueue s).events.count (Ev.onError A.id)
      = s.events.count (Ev.onError A.id) + 1 ∧
    (processQueue s).events.count (Ev.onFinish A.id)
      = s.events.count (Ev.onFinish A.id) := by
  have main : processQueue s =
      { s with wait := false, queue := rest, queueLock := false,
               playerStatus := PlayerStatus.Playing, playerResource := some B,
               events := s.events ++ [Ev.onError A.id, Ev.played B.id] } := by
    simp [processQueue, processQueueFrom, hq, hA, hB, hlock, hidle]
  refine ⟨main, ?_, ?_, ?_, ?_⟩ <;>
    simp [main, List.count_append, List.count_cons, List.count_nil]

/-- C1 witness: the theorem applied to the concrete two-element queue. -/
theorem processQueue_failed_track_skips_witness :
    processQueue sC1 =
      { sC1 with wait := false, queue := ([] : List Track), queueLock := false,
                 playerStatus := PlayerStatus.Playing, playerResource := some tB,
                 events := sC1.events ++ [Ev.onError tA.id, Ev.played tB.id] } :=
  (processQueue_failed_track_skips sC1 tA tB [] rfl rfl rfl rfl rfl).1

/-- C2: `stop()` is idempotent. A second call (whether explicit or through the
connection-Destroyed cascade, which simply calls `stop()` again) changes
nothing; the call clears the queue without emitting any callback or
notification event, force-stops the player, marks the subscription destroyed,
removes it from the registry, and destroys the connection exactly when it was
not destroyed already. -/
theorem stop_idempotent (s : MusicSub) :
    stopMethod (stopMethod s) = stopMethod s ∧
    destroyConnCascade (stopMethod s) = stopMethod s ∧
    (stopMethod s).queue = [] ∧
    (stopMethod s).events = s.events ∧
    (stopMethod s).destroyed = true ∧
    (stopMethod s).playerStatus = PlayerStatus.Idle ∧
    (stopMethod s).playerResource = none ∧
    (stopMethod s).inRegistry = false ∧
    (stopMethod s).connStatus = ConnStatus.Destroyed ∧
    (stopMethod s).connDestroyCount =
      (if s.connStatus = ConnStatus.Destroyed then s.connDestroyCount
       else s.connDestroyCount + 1) := by
  by_cases h : s.connStatus = ConnStatus.Destroyed <;>
    simp [stopMethod, destroyConnCascade, h]

/-- C3: on a `Connecting` transition with the ready guard unarmed, when `Ready`
is not reached within the 15 second window, the catch block evaluates the
unbound identifier `VoiceConnectdionStatus` and throws a ReferenceError, so the
connection is NOT destroyed (contrary to the specified timeout behavior); the
`finally` clears the guard. The third conjunct shows the handler does not
re-arm an already armed guard. -/
theorem readyGuard_timeout_not_destroyed :
    onConnectingOrSignalling
        { readyLock := false, connStatus := ConnStatus.Connecting, connDestroyCount := 0 }
        ConnStatus.Connecting false
      = ({ readyLock := false, connStatus := ConnStatus.Connecting, connDestroyCount := 0 },
         some (JsError.referenceError "VoiceConnectdionStatus")) ∧
    identDefined "VoiceConnectdionStatus" = false ∧
    onConnectingOrSignalling
        { readyLock := true, connStatus := ConnStatus.Connecting, connDestroyCount := 0 }
        ConnStatus.Connecting false
      = ({ readyLock := true, connStatus := ConnStatus.Connecting, connDestroyCount := 0 },
         none) := by
  refine ⟨?_, ?_, ?_⟩ <;> rfl

/-- C7: the idle-transition handler dereferences `(oldState.resource).metadata`
without a guard, so a transition into Idle whose previous snapshot holds no
resource throws a TypeError instead of being a guarded no-op (first two
conjuncts, with and without a later Playing transition). When a resource was
held, `onFinish` fires exactly once, and only when the ended track's `errored`
flag is unset (last two conjuncts). -/
theorem idleHandler_no_resource_throws :
    idleHandler subInit none false
      = Except.error (JsError.typeErrorUndefined "metadata") ∧
    idleHandler subInit none true
      = Except.error (JsError.typeErrorUndefined "metadata") ∧
    idleHandler subInit (some { id := 4, errored := false, produceOk := true }) true
      = Except.ok { subInit with events := [Ev.onFinish 4] } ∧
    idleHandler subInit (some { id := 4, errored := true, produceOk := true }) true
      = Except.ok subInit := by
  refine ⟨rfl, rfl, ?_, ?_⟩ <;> rfl

/-- C10: the command table defines the key `skip` twice and never defines
`stop`; under JavaScript object-literal semantics the later `skip` entry (the
one whose builder is named `stop` but whose body only stops the audio player)
overwrites the first, dispatching an interaction named `stop` finds no command
and performs no operation, and no command body ever calls
`MusicSubscription.stop`. -/
theorem commands_skip_duplicate_no_stop :
    (commandEntries.map Prod.fst).count "skip" = 2 ∧
    ((commandEntries.map Prod.fst).contains "stop") = false ∧
    jsObject commandEntries "skip"
      = some { builderName := "stop", callsSubscriptionStop := false } ∧
    dispatch "stop" = DispatchResult.noop ∧
    commandEntries.all (fun e => !e.2.callsSubscriptionStop) = true := by
  refine ⟨?_, ?_, ?_, ?_, ?_⟩ <;> rfl

/-- Splitting a run of disconnect events. -/
theorem runDisconnects_add (a b : Nat) (s : ReconnState) :
    runDisconnects (a + b) s = runDisconnects b (runDisconnects a s) := by
  induction a generalizing s with
  | zero => simp [runDisconnects, Nat.zero_add]
  | succ k ih =>
    rw [Nat.succ_add]
    show runDisconnects (k + b) (onDisconnectedRecoverable s)
      = runDisconnects b (runDisconnects k (onDisconnectedRecoverable s))
    exact ih (onDisconnectedRecoverable s)

/-- Six consecutive disconnect events from a fresh disconnect: five rejoin
cycles with linear backoff, and destruction on the event reporting the fifth
failure. -/
theorem runDisconnects_six :
    runDisconnects 6 reconnInit =
      { rejoinAttempts := 5, status := ConnStatus.Destroyed,
        waits := [5000, 10000, 15000, 20000, 25000], rejoins := 5 } := by
  decide

/-- Once the attempt budget is spent and the connection destroyed, further
disconnect events change nothing. -/
theorem onDisconnectedRecoverable_fixed (w : List Nat) (r : Nat) :
    onDisconnectedRecoverable
        { rejoinAttempts := 5, status := ConnStatus.Destroyed, waits := w, rejoins := r }
      = { rejoinAttempts := 5, status := ConnStatus.Destroyed, waits := w, rejoins := r } := by
  simp [onDisconnectedRecoverable]

/-- Runs longer than six events are stationary. -/
theorem runDisconnects_ge_six (n : Nat) (h : 6 ≤ n) :
    runDisconnects n reconnInit = runDisconnects 6 reconnInit := by
  obtain ⟨m, rfl⟩ : ∃ m, n = 6 + m := ⟨n - 6, by omega⟩
  rw [runDisconnects_add, runDisconnects_six]
  induction m with
  | zero => rfl
  | succ k ih =>
    show runDisconnects k (onDisconnectedRecoverable _) = _
    rw [onDisconnectedRecoverable_fixed]
    exact ih (by omega)

/-- C5: from a fresh disconnect, each of the first five cycles waits
`(attempts + 1) * 5` seconds and issues a rejoin that increments the attempt
counter; after five failed cycles the connection is still alive with five
rejoins issued, the event reporting the fifth rejoin's failure destroys it
(with no sixth rejoin), destruction happens exactly then and not at any
earlier point, and reaching Ready resets the counter to zero. -/
theorem disconnected_rejoin_bound :
    (runDisconnects 5 reconnInit).status = ConnStatus.Disconnected ∧
    (runDisconnects 5 reconnInit).rejoins = 5 ∧
    (runDisconnects 5 reconnInit).rejoinAttempts = 5 ∧
    (runDisconnects 5 reconnInit).waits = [5000, 10000, 15000, 20000, 25000] ∧
    (runDisconnects 6 reconnInit).status = ConnStatus.Destroyed ∧
    (runDisconnects 6 reconnInit).rejoins = 5 ∧
    (∀ n : Nat, (runDisconnects n reconnInit).status = ConnStatus.Destroyed ↔ 6 ≤ n) ∧
    (∀ s : ReconnState, (onReadyReached s).rejoinAttempts = 0) ∧
    (∀ s : ReconnState, s.rejoinAttempts < 5 →
      onDisconnectedRecoverable s =
        { s with waits := s.waits ++ [(s.rejoinAttempts + 1) * 5000],
                 rejoinAttempts := s.rejoinAttempts + 1,
                 rejoins := s.rejoins + 1 }) := by
  refine ⟨by decide, by decide, by decide, by decide, by decide, by decide, ?_, ?_, ?_⟩
  · intro n
    constructor
    · intro hdes
      by_contra hlt
      have h5 : n ≤ 5 := by omega
      interval_cases n <;> simp_all <;> revert hdes <;> decide
    · intro h
      rw [runDisconnects_ge_six n h, runDisconnects_six]
  · intro s; rfl
  · intro s h
    simp [onDisconnectedRecoverable, h]

/-- C5 witness: the first cycle from a fresh disconnect. -/
theorem disconnected_rejoin_bound_witness :
    onDisconnectedRecoverable reconnInit =
      { reconnInit with
          waits := reconnInit.waits ++ [(reconnInit.rejoinAttempts + 1) * 5000],
          rejoinAttempts := reconnInit.rejoinAttempts + 1,
          rejoins := reconnInit.rejoins + 1 } :=
  disconnected_rejoin_bound.2.2.2.2.2.2.2.2 reconnInit (by decide)

/-- Setting a key makes it readable. -/
theorem mapGet_mapSet_self (m : List (String × SubHandle)) (k : String) (v : SubHandle) :
    mapGet (mapSet m k v) k = some v := by
  induction m with
  | nil => simp [mapSet, mapGet]
  | cons e rest ih =>
    obtain ⟨k', v'⟩ := e
    by_cases h : k' = k <;> simp [mapSet, mapGet, h, ih]

/-- Setting a key that is present does not change the key list. -/
theorem mapSet_keys_of_mem (m : List (String × SubHandle)) (k : String) (v v0 : SubHandle)
    (h : mapGet m k = some v0) :
    (mapSet m k v).map Prod.fst = m.map Prod.fst := by
  induction m with
  | nil => simp [mapGet] at h
  | cons e rest ih =>
    obtain ⟨k', v'⟩ := e
    by_cases hk : k' = k
    · simp [mapSet, hk]
    · simp only [mapGet, if_neg hk] at h
      simp [mapSet, hk, ih h]

/-- A key misses exactly when it is not among the entry keys. -/
theorem mapGet_none_iff (m : List (String × SubHandle)) (k : String) :
    mapGet m k = none ↔ k ∉ m.map Prod.fst := by
  induction m with
  | nil => simp [mapGet]
  | cons e rest ih =>
    obtain ⟨k', v'⟩ := e
    by_cases hk : k' = k
    · subst hk
      simp [mapGet]
    · simp only [mapGet, if_neg hk, List.map_cons, List.mem_cons]
      rw [ih]
      constructor
      · intro h
        rintro (h1 | h2)
        · exact hk h1.symm
        · exact h h2
      · intro h h2
        exact h (Or.inr h2)

/-- Setting an absent key appends the new entry. -/
theorem mapSet_of_not_mem (m : List (String × SubHandle)) (k : String) (v : SubHandle)
    (h : mapGet m k = none) :
    mapSet m k v = m ++ [(k, v)] := by
  induction m with
  | nil => simp [mapSet]
  | cons e rest ih =>
    obtain ⟨k', v'⟩ := e
    by_cases hk : k' = k
    · simp [mapGet, hk] at h
    · simp only [mapGet, if_neg hk] at h
      simp [mapSet, hk, ih h]

/-- Setting preserves key uniqueness. -/
theorem mapSet_nodup (m : List (String × SubHandle)) (k : String) (v : SubHandle)
    (h : (m.map Prod.fst).Nodup) :
    ((mapSet m k v).map Prod.fst).Nodup := by
  cases hg : mapGet m k with
  | some v0 => rw [mapSet_keys_of_mem m k v v0 hg]; exact h
  | none =>
    rw [mapSet_of_not_mem m k v hg]
    rw [List.map_append]
    refine List.Nodup.append h (List.nodup_singleton k) ?_
    intro a ha hb
    simp only [List.map_cons, List.map_nil, List.mem_singleton] at hb
    subst hb
    exact (mapGet_none_iff m a).mp hg ha

/-- The found branch of `getOrCreateSubscription`. -/
theorem getOrCreate_found (r : RegState) (g : String) (t : Nat) (v0 : SubHandle)
    (h : mapGet r.entries g = some v0) :
    getOrCreateSubscription r g t =
      ({ v0 with lastTextChannel := t },
       { r with entries := mapSet r.entries g { v0 with lastTextChannel := t } }) := by
  unfold getOrCreateSubscription
  rw [h]

/-- The construct branch of `getOrCreateSubscription`. -/
theorem getOrCreate_absent (r : RegState) (g : String) (t : Nat)
    (h : mapGet r.entries g = none) :
    getOrCreateSubscription r g t =
      ({ instId := r.nextInst, lastTextChannel := t },
       { entries := mapSet r.entries g { instId := r.nextInst, lastTextChannel := t },
         nextInst := r.nextInst + 1 }) := by
  unfold getOrCreateSubscription
  rw [h]

/-- Either way, the result is registered under the guild key afterwards. -/
theorem getOrCreate_registered (r : RegState) (g : String) (t : Nat) :
    mapGet ((getOrCreateSubscription r g t).2).entries g
      = some (getOrCreateSubscription r g t).1 := by
  cases hg : mapGet r.entries g with
  | some v0 => rw [getOrCreate_found r g t v0 hg]; exact mapGet_mapSet_self _ _ _
  | none => rw [getOrCreate_absent r g t hg]; exact mapGet_mapSet_self _ _ _

/-- C4: the registry holds at most one subscription per guild key. A second
`getOrCreateSubscription` call for the same guild returns the same instance
(same construction identity), only updates its notification target, constructs
nothing new (the instance counter and the key list are unchanged), a new
subscription is constructed and inserted exactly when no entry exists, and key
uniqueness of the registry is preserved. -/
theorem getOrCreateSubscription_unique (r : RegState) (g : String) (t1 t2 : Nat) :
    ((getOrCreateSubscription (getOrCreateSubscription r g t1).2 g t2).1).instId
        = ((getOrCreateSubscription r g t1).1).instId ∧
    (getOrCreateSubscription (getOrCreateSubscription r g t1).2 g t2).1
        = { (getOrCreateSubscription r g t1).1 with lastTextChannel := t2 } ∧
    ((getOrCreateSubscription (getOrCreateSubscription r g t1).2 g t2).2).nextInst
        = ((getOrCreateSubscription r g t1).2).nextInst ∧
    ((getOrCreateSubscription (getOrCreateSubscription r g t1).2 g t2).2).entries.map Prod.fst
        = ((getOrCreateSubscription r g t1).2).entries.map Prod.fst ∧
    mapGet ((getOrCreateSubscription r g t1).2).entries g
        = some (getOrCreateSubscription r g t1).1 ∧
    (∀ v0 : SubHandle, mapGet r.entries g = some v0 →
       (getOrCreateSubscription r g t1).1 = { v0 with lastTextChannel := t1 } ∧
       ((getOrCreateSubscription r g t1).2).nextInst = r.nextInst) ∧
    (mapGet r.entries g = none →
       (getOrCreateSubscription r g t1).1
           = { instId := r.nextInst, lastTextChannel := t1 } ∧
       ((getOrCreateSubscription r g t1).2).entries
           = r.entries ++ [(g, (getOrCreateSubscription r g t1).1)]) ∧
    ((r.entries.map Prod.fst).Nodup →
       (((getOrCreateSubscription r g t1).2).entries.map Prod.fst).Nodup) := by
  have hreg := getOrCreate_registered r g t1
  have hsecond := getOrCreate_found (getOrCreateSubscription r g t1).2 g t2
    (getOrCreateSubscription r g t1).1 hreg
  refine ⟨?_, ?_, ?_, ?_, hreg, ?_, ?_, ?_⟩
  · rw [hsecond]
  · rw [hsecond]
  · rw [hsecond]
  · rw [hsecond]
    exact mapSet_keys_of_mem _ g _ _ hreg
  · intro v0 h0
    rw [getOrCreate_found r g t1 v0 h0]
    exact ⟨rfl, rfl⟩
  · intro h0
    rw [getOrCreate_absent r g t1 h0]
    refine ⟨rfl, ?_⟩
    exact mapSet_of_not_mem _ _ _ h0
  · intro hnd
    cases hg : mapGet r.entries g with
    | some v0 => rw [getOrCreate_found r g t1 v0 hg]; exact mapSet_nodup _ _ _ hnd
    | none => rw [getOrCreate_absent r g t1 hg]; exact mapSet_nodup _ _ _ hnd

/-- C4 witness: creating in an empty registry then fetching again. -/
theorem getOrCreateSubscription_unique_witness :
    (getOrCreateSubscription regSample "g" 1).1
        = { instId := regSample.nextInst, lastTextChannel := 1 } ∧
    ((getOrCreateSubscription regSample "g" 1).2).entries
        = regSample.entries ++ [("g", (getOrCreateSubscription regSample "g" 1).1)] :=
  (getOrCreateSubscription_unique regSample "g" 1 2).2.2.2.2.2.2.1 rfl

/-- C6: a subscription whose player goes Idle with an empty queue and sees no
Playing transition within the 30 second window sends exactly one inactivity
notification to the last text channel and destroys the connection, which
cascades into `stop()`: the subscription is marked destroyed and leaves the
registry. -/
theorem idle_timeout_teardown
    (s : MusicSub) (t : Track)
    (hq : s.queue = []) (hw : s.wait = false)
    (hconn : s.connStatus ≠ ConnStatus.Destroyed) :
    idleHandler s (some t) false =
      Except.ok
        { queue := [], queueLock := true, wait := false, destroyed := true,
          playerStatus := PlayerStatus.Idle, playerResource := none,
          connStatus := ConnStatus.Destroyed,
          connDestroyCount := s.connDestroyCount + 1, inRegistry := false,
          lastTextChannel := s.lastTextChannel,
          events := (s.events ++ (if t.errored = false then [Ev.onFinish t.id] else []))
                      ++ [Ev.notify s.lastTextChannel] } := by
  by_cases he : t.errored = false <;>
    simp [idleHandler, processQueue, processQueueFrom, stopMethod, destroyConnCascade,
          hq, hw, hconn, he]

/-- C6 witness: the theorem at a concrete live subscription. -/
theorem idle_timeout_teardown_witness :
    idleHandler subInit (some tB) false =
      Except.ok
        { queue := [], queueLock := true, wait := false, destroyed := true,
          playerStatus := PlayerStatus.Idle, playerResource := none,
          connStatus := ConnStatus.Destroyed,
          connDestroyCount := subInit.connDestroyCount + 1, inRegistry := false,
          lastTextChannel := subInit.lastTextChannel,
          events := (subInit.events
                      ++ (if tB.errored = false then [Ev.onFinish tB.id] else []))
                      ++ [Ev.notify subInit.lastTextChannel] } :=
  idle_timeout_teardown subInit tB rfl rfl (by decide)

/-- C8 counterexample: on the queue `[tX, tY]` (length 2), the `/swap`
invocation with indices 2 and 0 passes every validation check (the clamp guard
is strict, so index 2 slips through), reaches `MusicSubscription.swap`, and
mutates the queue into the three-slot `[undefined, tY, tX]` instead of being
rejected with a validation reply; with index 3 the clamp guard holds and the
handler throws a ReferenceError on the unbound identifier `queue` instead of
replying. -/
theorem swapCommand_out_of_range_not_rejected :
    swapCommandExecute [some tX, some tY] (some 2) (some 0) =
      SwapOutcome.swapped [none, some tY, some tX] 2 0 ∧
    swapCommandExecute [some tX, some tY] (some 3) (some 0) =
      SwapOutcome.thrown (JsError.referenceError "queue") := by
  exact ⟨rfl, rfl⟩

/-- C8 (amended): non-numeric, equal, and negative indices are rejected by the
caller layer with a synchronous validation reply before
`MusicSubscription.swap` is reached, and `swap` itself performs no bounds
checking; but indices beyond the queue are NOT all rejected: an index strictly
greater than the queue length makes the handler throw a ReferenceError (its
clamping line references the unbound identifier `queue` and assigns to a
`const`), and an index exactly equal to the queue length passes every check,
reaches `swap`, and mutates the queue, growing it by one slot. -/
theorem swapCommand_validation_amended
    (q : List (Option Track)) (i1 i2 : Int) (hlen : 2 ≤ q.length) :
    swapCommandExecute q none (some i2) = SwapOutcome.reply SwapReply.notANumber ∧
    swapCommandExecute q (some i1) none = SwapOutcome.reply SwapReply.notANumber ∧
    (i1 ≤ (q.length : Int) →
      swapCommandExecute q (some i1) (some i1) = SwapOutcome.reply SwapReply.sameIndices) ∧
    (i1 ≤ (q.length : Int) → i2 ≤ (q.length : Int) → i1 ≠ i2 → (i1 < 0 ∨ i2 < 0) →
      swapCommandExecute q (some i1) (some i2) = SwapOutcome.reply SwapReply.negativeIndex) ∧
    ((q.length : Int) < i1 →
      swapCommandExecute q (some i1) (some i2)
        = SwapOutcome.thrown (JsError.referenceError "queue")) ∧
    (i1 ≤ (q.length : Int) → (q.length : Int) < i2 →
      swapCommandExecute q (some i1) (some i2)
        = SwapOutcome.thrown (JsError.referenceError "queue")) ∧
    (∀ j : Nat, j < q.length →
      swapCommandExecute q (some (q.length : Int)) (some (j : Int)) =
        SwapOutcome.swapped (swap q q.length j) (q.length : Int) (j : Int) ∧
      (swap q q.length j).length = q.length + 1) ∧
    commandsModuleScope.contains "queue" = false := by
  have hnot : ¬ q.length < 2 := by omega
  refine ⟨?_, ?_, ?_, ?_, ?_, ?_, ?_, rfl⟩
  · simp [swapCommandExecute, hnot]
  · simp [swapCommandExecute, hnot]
  · intro h1
    have : ¬ (q.length : Int) < i1 := by omega
    simp [swapCommandExecute, hnot, this]
  · intro h1 h2 hne hneg
    have e1 : ¬ (q.length : Int) < i1 := by omega
    have e2 : ¬ (q.length : Int) < i2 := by omega
    simp [swapCommandExecute, hnot, e1, e2, hne, hneg]
  · intro h1
    simp [swapCommandExecute, hnot, h1]
  · intro h1 h2
    have e1 : ¬ (q.length : Int) < i1 := by omega
    simp [swapCommandExecute, hnot, e1, h2]
  · intro j hj
    have e1 : ¬ (q.length : Int) < (q.length : Int) := by omega
    have e2 : ¬ (q.length : Int) < (j : Int) := by
      have : (j : Int) < (q.length : Int) := by exact_mod_cast hj
      omega
    have hne : ¬ ((q.length : Int) = (j : Int)) := by
      have : (j : Int) < (q.length : Int) := by exact_mod_cast hj
      omega
    have hneg : ¬ ((q.length : Int) < 0 ∨ (j : Int) < 0) := by
      push_neg
      exact ⟨Int.natCast_nonneg _, Int.natCast_nonneg _⟩
    constructor
    · simp [swapCommandExecute, hnot, e1, e2, hne, hneg]
    · have hjget : jsIndex q j = q[j] := by
        simp [jsIndex, List.get?_eq_getElem?, List.getElem?_eq_getElem hj]
      have hout : jsIndex q q.length = none := by
        simp [jsIndex, List.get?_eq_getElem?, List.getElem?_eq_none (Nat.le_refl q.length)]
      have hw1 : jsWrite q q.length (jsIndex q j) = q ++ [q[j]] := by
        simp [jsWrite, hjget]
      have hlen1 : (q ++ [q[j]]).length = q.length + 1 := by simp
      simp only [swap, hout, hw1]
      rw [jsWrite]
      rw [if_pos (by simp; omega)]
      simp

/-- C8 witness: the amended theorem applied to the concrete two-track queue at
the slipping index. -/
theorem swapCommand_validation_amended_witness :
    swapCommandExecute [some tX, some tY] (some 2) (some 0) =
      SwapOutcome.swapped (swap [some tX, some tY] 2 0) 2 0 ∧
    (swap [some tX, some tY] 2 0).length = 3 := by
  have h := (swapCommand_validation_amended [some tX, some tY] 0 0 (by decide)).2.2.2.2.2.2.1
    0 (by decide)
  exact ⟨h.1, h.2⟩

/-- In-range array reads are plain list indexing. -/
theorem jsIndex_lt {α : Type} (q : List (Option α)) (i : Nat) (h : i < q.length) :
    jsIndex q i = q[i] := by
  simp [jsIndex, List.get?_eq_getElem?, List.getElem?_eq_getElem h]

/-- In-range array writes are plain list updates. -/
theorem jsWrite_lt {α : Type} (q : List (Option α)) (i : Nat) (v : Option α)
    (h : i < q.length) :
    jsWrite q i v = q.set i v := by
  simp [jsWrite, h]

/-- With both indices in range, `swap` is the double list update. -/
theorem swap_inRange {α : Type} (q : List (Option α)) (i j : Nat)
    (hi : i < q.length) (hj : j < q.length) :
    swap q i j = (q.set i (q[j])).set j (q[i]) := by
  have h1 : jsIndex q i = q[i] := jsIndex_lt q i hi
  have h2 : jsIndex q j = q[j] := jsIndex_lt q j hj
  have h3 : jsWrite q i (q[j]) = q.set i (q[j]) := jsWrite_lt q i _ hi
  have h4 : jsWrite (q.set i (q[j])) j (q[i]) = (q.set i (q[j])).set j (q[i]) :=
    jsWrite_lt _ j _ (by rw [List.length_set]; exact hj)
  simp only [swap, h1, h2, h3, h4]

/-- In-range swaps preserve the length. -/
theorem swap_length_inRange {α : Type} (q : List (Option α)) (i j : Nat)
    (hi : i < q.length) (hj : j < q.length) :
    (swap q i j).length = q.length := by
  rw [swap_inRange q i j hi hj]
  simp

/-- Updating one position exchanges exactly the old element for the new one at
multiset level. -/
theorem multiset_set {γ : Type} (l : List γ) (n : Nat) (a : γ) (h : n < l.length) :
    ((l.set n a : List γ) : Multiset γ) + {l[n]} = (l : Multiset γ) + {a} := by
  induction l generalizing n with
  | nil => simp at h
  | cons hd tl ih =>
    have e : ∀ (x : γ) (s : Multiset γ), s + {x} = x ::ₘ s := fun x s => by
      rw [add_comm, Multiset.singleton_add]
    cases n with
    | zero =>
      simp only [List.set, List.getElem_cons_zero]
      rw [← Multiset.cons_coe, ← Multiset.cons_coe, e, e, Multiset.cons_swap]
    | succ m =>
      have hm : m < tl.length := by simpa using h
      simp only [List.set, List.getElem_cons_succ]
      rw [← Multiset.cons_coe, ← Multiset.cons_coe, Multiset.cons_add, Multiset.cons_add,
          ih m hm]

/-- The double update at two in-range positions is a permutation. -/
theorem set_set_perm {γ : Type} (q : List γ) (i j : Nat)
    (hi : i < q.length) (hj : j < q.length) :
    List.Perm ((q.set i (q[j])).set j (q[i])) q := by
  by_cases hij : i = j
  · subst hij
    rw [List.set_set]
    exact Multiset.coe_eq_coe.mp (add_right_cancel (multiset_set q i (q[i]) hi))
  · have h1 := multiset_set q i (q[j]) hi
    have hj2 : j < (q.set i (q[j])).length := by rw [List.length_set]; exact hj
    have h2 := multiset_set (q.set i (q[j])) j (q[i]) hj2
    have hgj : (q.set i (q[j]))[j] = q[j] := List.getElem_set_ne hij hj2
    rw [hgj] at h2
    exact Multiset.coe_eq_coe.mp (add_right_cancel (h2.trans h1))

/-- An in-range `swap` is a permutation of the queue. -/
theorem swap_perm {α : Type} (q : List (Option α)) (i j : Nat)
    (hi : i < q.length) (hj : j < q.length) :
    List.Perm (swap q i j) q := by
  rw [swap_inRange q i j hi hj]
  exact set_set_perm q i j hi hj

/-- The shuffle loop preserves the queue length whenever the draws are genuine
`Math.random` outcomes. -/
theorem shuffleGo_length {α : Type} (rand : Nat → Nat) (hr : ∀ m, 0 < m → rand m < m) :
    ∀ (c : Nat) (q : List (Option α)), c ≤ q.length →
      (shuffleGo rand c q).length = q.length := by
  intro c
  induction c with
  | zero => intro q _; rfl
  | succ k ih =>
    intro q hc
    have hk : k < q.length := by omega
    have hrn : rand (k + 1) < q.length := by
      have := hr (k + 1) (Nat.succ_pos k)
      omega
    have hl := swap_length_inRange q k (rand (k + 1)) hk hrn
    show (shuffleGo rand k (swap q k (rand (k + 1)))).length = q.length
    rw [ih _ (by omega), hl]

/-- The shuffle loop permutes the queue. -/
theorem shuffleGo_perm {α : Type} (rand : Nat → Nat) (hr : ∀ m, 0 < m → rand m < m) :
    ∀ (c : Nat) (q : List (Option α)), c ≤ q.length →
      List.Perm (shuffleGo rand c q) q := by
  intro c
  induction c with
  | zero => intro q _; exact List.Perm.refl q
  | succ k ih =>
    intro q hc
    have hk : k < q.length := by omega
    have hrn : rand (k + 1) < q.length := by
      have := hr (k + 1) (Nat.succ_pos k)
      omega
    have hl := swap_length_inRange q k (rand (k + 1)) hk hrn
    show List.Perm (shuffleGo rand k (swap q k (rand (k + 1)))) q
    exact (ih _ (by omega)).trans (swap_perm q k (rand (k + 1)) hk hrn)

/-- Unfolding an application of the last-fixing extension. -/
theorem extLast_apply {n : Nat} (ρ : Equiv.Perm (Fin n)) (i : Fin (n + 1)) :
    extLast ρ i = if h : i.val < n then Fin.castSucc (ρ ⟨i.val, h⟩) else i := rfl

/-- The extension acts as the original permutation below the top index. -/
theorem extLast_apply_castSucc {n : Nat} (ρ : Equiv.Perm (Fin n)) (c : Fin n) :
    extLast ρ c.castSucc = (ρ c).castSucc := by
  rw [extLast_apply]
  have h : (Fin.castSucc c).val < n := by simp
  rw [dif_pos h]
  have e : (⟨(Fin.castSucc c).val, h⟩ : Fin n) = c := Fin.ext (by simp)
  rw [e]

/-- The extension fixes the top index. -/
theorem extLast_apply_last {n : Nat} (ρ : Equiv.Perm (Fin n)) :
    extLast ρ (Fin.last n) = Fin.last n := by
  rw [extLast_apply]
  rw [dif_neg (by simp)]

/-- Extending the identity gives the identity. -/
theorem extLast_one {n : Nat} : extLast (1 : Equiv.Perm (Fin n)) = 1 := by
  apply Equiv.ext
  intro i
  rw [extLast_apply]
  by_cases h : i.val < n
  · rw [dif_pos h]
    show Fin.castSucc ((1 : Equiv.Perm (Fin n)) ⟨i.val, h⟩) = (1 : Equiv.Perm (Fin (n + 1))) i
    simp [Fin.ext_iff]
  · rw [dif_neg h]
    rfl

/-- Extension is a homomorphism for composition. -/
theorem extLast_mul {n : Nat} (ρ τ : Equiv.Perm (Fin n)) :
    extLast (ρ * τ) = extLast ρ * extLast τ := by
  apply Equiv.ext
  intro i
  rw [Equiv.Perm.mul_apply]
  by_cases h : i.val < n
  · rw [extLast_apply (ρ * τ), dif_pos h]
    rw [extLast_apply τ, dif_pos h]
    rw [extLast_apply_castSucc]
    rw [Equiv.Perm.mul_apply]
  · rw [extLast_apply (ρ * τ), dif_neg h, extLast_apply τ, dif_neg h,
        extLast_apply ρ, dif_neg h]

/-- Extension is injective. -/
theorem extLast_injective {n : Nat} : Function.Injective (@extLast n) := by
  intro ρ ρ' h
  apply Equiv.ext
  intro c
  have h2 := congrArg (fun σ : Equiv.Perm (Fin (n + 1)) => σ c.castSucc) h
  simp only at h2
  rw [extLast_apply_castSucc, extLast_apply_castSucc] at h2
  exact Fin.castSucc_injective n h2

/-- Extending a transposition transposes the embedded points. -/
theorem extLast_swap {n : Nat} (a b : Fin n) :
    extLast (Equiv.swap a b) = Equiv.swap a.castSucc b.castSucc := by
  apply Equiv.ext
  intro i
  by_cases h : i.val < n
  · have hi : i = (⟨i.val, h⟩ : Fin n).castSucc := Fin.ext (by simp)
    rw [hi, extLast_apply_castSucc]
    simp only [Equiv.swap_apply_def, apply_ite Fin.castSucc, Fin.castSucc_inj]
  · have hv : i.val = n := by
      have := i.isLt
      omega
    have hi : i = Fin.last n := Fin.ext (by rw [hv]; simp)
    rw [hi, extLast_apply_last]
    rw [Equiv.swap_apply_of_ne_of_ne]
    · exact Fin.ne_of_val_ne (by simp; omega)
    · exact Fin.ne_of_val_ne (by simp; omega)

/-- The loop permutation only depends on the draws actually used. -/
theorem loopPerm_congr (n : Nat) (r1 r2 : Nat → Nat) :
    ∀ c : Nat, (∀ m, 0 < m → m ≤ c → r1 m = r2 m) →
      loopPerm n r1 c = loopPerm n r2 c := by
  intro c
  induction c with
  | zero => intro _; rfl
  | succ k ih =>
    intro h
    have he : r1 (k + 1) = r2 (k + 1) := h (k + 1) (Nat.succ_pos k) (Nat.le_refl _)
    have hk := ih (fun m hm hmk => h m hm (Nat.le_succ_of_le hmk))
    simp only [loopPerm]
    simp only [he, hk]

/-- Below the top index, the loop permutation at width `n + 1` is the
extension of the loop permutation at width `n`. -/
theorem loopPerm_extLast (n : Nat) (rand : Nat → Nat)
    (hr : ∀ m, 0 < m → rand m < m) :
    ∀ c : Nat, c ≤ n → loopPerm (n + 1) rand c = extLast (loopPerm n rand c) := by
  intro c
  induction c with
  | zero =>
    intro _
    show (1 : Equiv.Perm (Fin (n + 1))) = extLast (1 : Equiv.Perm (Fin n))
    rw [extLast_one]
  | succ k ih =>
    intro hc
    have hkn : k < n := by omega
    have hrn : rand (k + 1) < n := by
      have := hr (k + 1) (Nat.succ_pos k)
      omega
    have hkn1 : k < n + 1 := by omega
    have hrn1 : rand (k + 1) < n + 1 := by omega
    simp only [loopPerm]
    rw [dif_pos ⟨hkn1, hrn1⟩, dif_pos ⟨hkn, hrn⟩]
    rw [extLast_mul, extLast_swap]
    rw [ih (by omega)]
    rfl

/-- Genuine draw sequences stay in range. -/
theorem randOf_lt (n : Nat) (d : (c : Fin n) → Fin (c.val + 1)) :
    ∀ m, 0 < m → randOf n d m < m := by
  intro m hm
  unfold randOf
  by_cases h : 0 < m ∧ m ≤ n
  · rw [dif_pos h]
    have hlt : (d ⟨m - 1, by omega⟩).val < m - 1 + 1 := Fin.isLt _
    exact Nat.lt_of_lt_of_le hlt (by omega)
  · rw [dif_neg h]
    exact hm

/-- Restricting a draw sequence matches restricting its numeric form. -/
theorem randOf_agree (n : Nat) (d : (c : Fin (n + 1)) → Fin (c.val + 1)) :
    ∀ m, 0 < m → m ≤ n →
      randOf (n + 1) d m = randOf n (fun c => d c.castSucc) m := by
  intro m h1 h2
  unfold randOf
  rw [dif_pos ⟨h1, by omega⟩, dif_pos ⟨h1, h2⟩]
  rfl

/-- Peeling the top step off the full loop permutation. -/
theorem fyMap_succ (n : Nat) (d : (c : Fin (n + 1)) → Fin (c.val + 1)) :
    fyMap (n + 1) d
      = Equiv.swap (Fin.last n) (d (Fin.last n))
          * extLast (fyMap n (fun c => d c.castSucc)) := by
  unfold fyMap
  simp only [loopPerm]
  rw [dif_pos ⟨Nat.lt_succ_self n, randOf_lt (n + 1) d (n + 1) (Nat.succ_pos n)⟩]
  rw [loopPerm_extLast n (randOf (n + 1) d) (randOf_lt (n + 1) d) n (Nat.le_refl n)]
  rw [loopPerm_congr n (randOf (n + 1) d) (randOf n (fun c => d c.castSucc)) n
      (fun m hm hmn => randOf_agree n d m hm hmn)]
  have h2 : (⟨randOf (n + 1) d (n + 1),
        randOf_lt (n + 1) d (n + 1) (Nat.succ_pos n)⟩ : Fin (n + 1))
      = d (Fin.last n) := by
    apply Fin.ext
    show randOf (n + 1) d (n + 1) = (d (Fin.last n)).val
    unfold randOf
    rw [dif_pos ⟨Nat.succ_pos n, Nat.le_refl (n + 1)⟩]
    rfl
  rw [h2]
  rfl

/-- Distinct draw sequences give distinct permutations. -/
theorem fyMap_injective : ∀ n : Nat, Function.Injective (fyMap n) := by
  intro n
  induction n with
  | zero =>
    intro d d' _
    funext c
    exact c.elim0
  | succ k ih =>
    intro d d' h
    rw [fyMap_succ, fyMap_succ] at h
    have hlast : d (Fin.last k) = d' (Fin.last k) := by
      have h1 := congrArg (fun σ : Equiv.Perm (Fin (k + 1)) => σ (Fin.last k)) h
      simp only [Equiv.Perm.mul_apply] at h1
      rw [extLast_apply_last, extLast_apply_last] at h1
      rw [Equiv.swap_apply_left, Equiv.swap_apply_left] at h1
      exact h1
    have hmul : Equiv.swap (Fin.last k) (d (Fin.last k))
        = Equiv.swap (Fin.last k) (d' (Fin.last k)) := by rw [hlast]
    rw [hmul] at h
    have hrest := extLast_injective (mul_left_cancel h)
    have hind := ih hrest
    funext c
    refine Fin.lastCases ?_ ?_ c
    · exact hlast
    · intro c'
      exact congrFun hind c'

/-- There are exactly `n !` complete draw sequences. -/
theorem card_draws : ∀ n : Nat, Fintype.card ((c : Fin n) → Fin (c.val + 1)) = n.factorial := by
  intro n
  induction n with
  | zero => simp
  | succ k ih =>
    rw [Fintype.card_pi] at ih ⊢
    simp only [Fintype.card_fin] at ih ⊢
    rw [Fin.prod_univ_castSucc]
    simp only [Fin.coe_castSucc, Fin.val_last]
    rw [ih, Nat.factorial_succ, Nat.mul_comm]

/-- The draws-to-permutation map is a bijection: uniform independent draws give
a uniform random permutation. -/
theorem fyMap_bijective (n : Nat) : Function.Bijective (fyMap n) := by
  rw [Fintype.bijective_iff_injective_and_card]
  refine ⟨fyMap_injective n, ?_⟩
  rw [card_draws, Fintype.card_perm, Fintype.card_fin]

/-- One in-range swap read through `get?` is indexing through the
transposition. -/
theorem swap_get? {α : Type} (n : Nat) (q : List (Option α)) (hq : q.length = n)
    (a b : Nat) (ha : a < n) (hb : b < n) (k : Fin n) :
    (swap q a b).get? k.val
      = q.get? ((Equiv.swap (⟨a, ha⟩ : Fin n) ⟨b, hb⟩ k).val) := by
  subst hq
  rcases k with ⟨kv, hk⟩
  rw [swap_inRange q a b ha hb]
  have hσ : ((Equiv.swap (⟨a, ha⟩ : Fin q.length) ⟨b, hb⟩) ⟨kv, hk⟩).val
      = if kv = a then b else if kv = b then a else kv := by
    rw [Equiv.swap_apply_def]
    by_cases h1 : kv = a
    · simp [Fin.ext_iff, h1]
    · by_cases h2 : kv = b
      · simp [Fin.ext_iff, h1, h2, apply_ite Fin.val]
      · simp [Fin.ext_iff, h1, h2]
  rw [hσ]
  rw [List.get?_eq_getElem?, List.get?_eq_getElem?]
  by_cases h1 : kv = a
  · subst h1
    rw [if_pos rfl]
    by_cases h2 : kv = b
    · subst h2
      rw [List.set_set]
      rw [List.getElem?_set_self ha]
      rw [List.getElem?_eq_getElem ha]
    · rw [List.getElem?_set_ne (fun he => h2 he.symm)]
      rw [List.getElem?_set_self ha]
      rw [List.getElem?_eq_getElem hb]
  · by_cases h2 : kv = b
    · rw [if_neg h1, if_pos h2]
      subst h2
      rw [List.getElem?_set_self (by simpa using hb)]
      rw [List.getElem?_eq_getElem ha]
    · rw [if_neg h1, if_neg h2]
      rw [List.getElem?_set_ne (fun he => h2 he.symm)]
      rw [List.getElem?_set_ne (fun he => h1 he.symm)]

/-- Every position of the shuffled queue reads the original queue through the
loop permutation. -/
theorem shuffleGo_get? {α : Type} (n : Nat) (rand : Nat → Nat)
    (hr : ∀ m, 0 < m → rand m < m) :
    ∀ (c : Nat) (q : List (Option α)), q.length = n → c ≤ n →
      ∀ (i : Nat) (hi : i < n),
        (shuffleGo rand c q).get? i
          = q.get? ((loopPerm n rand c ⟨i, hi⟩).val) := by
  intro c
  induction c with
  | zero =>
    intro q hq hc i hi
    show q.get? i = q.get? ((loopPerm n rand 0 ⟨i, hi⟩).val)
    rfl
  | succ k ih =>
    intro q hq hc i hi
    have hkn : k < n := by omega
    have hrn : rand (k + 1) < n := by
      have := hr (k + 1) (Nat.succ_pos k)
      omega
    have hkq : k < q.length := by omega
    have hrq : rand (k + 1) < q.length := by omega
    have hq' : (swap q k (rand (k + 1))).length = n := by
      rw [swap_length_inRange q k (rand (k + 1)) hkq hrq]
      exact hq
    show (shuffleGo rand k (swap q k (rand (k + 1)))).get? i = _
    rw [ih (swap q k (rand (k + 1))) hq' (by omega) i hi]
    rw [swap_get? n q hq k (rand (k + 1)) hkn hrn (loopPerm n rand k ⟨i, hi⟩)]
    congr 1
    show ((Equiv.swap ⟨k, hkn⟩ ⟨rand (k + 1), hrn⟩) (loopPerm n rand k ⟨i, hi⟩)).val
        = (loopPerm n rand (k + 1) ⟨i, hi⟩).val
    simp only [loopPerm]
    rw [dif_pos ⟨hkn, hrn⟩]
    rfl

/-- C9: `shuffle` is the in-place Fisher-Yates shuffle over the whole queue:
for genuine random draws the result is a permutation of the queue (same
multiset - no additions, removals, or duplicates), its length is unchanged,
every position of the result reads the original queue through the loop's
transposition permutation, and the map from complete draw sequences to that
permutation is a bijection, so uniform independent draws produce a uniform
random permutation. -/
theorem shuffle_fisher_yates {α : Type} (rand : Nat → Nat) (q : List (Option α))
    (hr : ∀ m, 0 < m → rand m < m) :
    List.Perm (shuffle rand q) q ∧
    (shuffle rand q).length = q.length ∧
    (∀ (i : Nat) (hi : i < q.length),
      (shuffle rand q).get? i
        = q.get? ((loopPerm q.length rand q.length ⟨i, hi⟩).val)) ∧
    (∀ m : Nat, Function.Bijective (fyMap m)) := by
  refine ⟨shuffleGo_perm rand hr q.length q (Nat.le_refl _),
          shuffleGo_length rand hr q.length q (Nat.le_refl _),
          ?_, fyMap_bijective⟩
  intro i hi
  exact shuffleGo_get? q.length rand hr q.length q rfl (Nat.le_refl _) i hi

/-- C9 witness: the shuffle with the always-top draw permutes a concrete
three-element queue. -/
theorem shuffle_fisher_yates_witness :
    List.Perm (shuffle (fun m => m - 1) [some 1, some 2, some 3])
      ([some 1, some 2, some 3] : List (Option Nat)) :=
  (shuffle_fisher_yates (fun m => m - 1) [some 1, some 2, some 3]
    (fun _ hm => Nat.sub_lt hm Nat.one_pos)).1

end MusicBot
